import Mathlib

/-!
Shallow embedding of src/terms.py (the terms-and-poetry line generator).

Python strings are modelled as `List Char`.  The string predicates are the
ASCII fragments of their Python counterparts (every theorem below evaluates
them on ASCII text only, except where a raw poetry line is passed through
untouched).  The module-level selection loop (lines 85-166 of terms.py) is
modelled as a fuel-indexed transition function over an explicit state record;
every call to `random.choice` consumes one value of an oracle `rand : Nat →
Nat`, interpreted modulo the size of the list being chosen from, so that every
possible sequence of draws of the Python program corresponds to some oracle.
-/

/-- ASCII whitespace recognised by Python's `str.isspace` / regex `\s`
(space, tab, newline, carriage return, vertical tab, form feed). -/
def wsChar (c : Char) : Bool :=
  c = ' ' || c = Char.ofNat 9 || c = Char.ofNat 10 || c = Char.ofNat 13 ||
    c = Char.ofNat 11 || c = Char.ofNat 12

/-- ASCII fragment of Python's regex class `\w`: letters, digits, underscore. -/
def wordChar (c : Char) : Bool :=
  c.isAlphanum || c = '_'

/-- Membership in Python's `string.punctuation`: the ASCII ranges 33-47,
58-64, 91-96 and 123-126. -/
def punctChar (c : Char) : Bool :=
  (33 ≤ c.toNat && c.toNat ≤ 47) || (58 ≤ c.toNat && c.toNat ≤ 64) ||
    (91 ≤ c.toNat && c.toNat ≤ 96) || (123 ≤ c.toNat && c.toNat ≤ 126)

/-- Python `str.isspace`: nonempty and all characters whitespace. -/
def pyIsSpace (t : List Char) : Bool :=
  !t.isEmpty && t.all wsChar

/-- Python `str.isupper` (ASCII fragment): at least one cased character and
no lowercase cased character. -/
def pyIsUpper (t : List Char) : Bool :=
  t.any (fun c => c.isAlpha) && t.all (fun c => !c.isAlpha || c.isUpper)

/-- Python `str.lower` (ASCII fragment). -/
def pyLower (t : List Char) : List Char :=
  t.map Char.toLower

/-- Python `str.strip()`: drop leading and trailing whitespace. -/
def stripWs (t : List Char) : List Char :=
  ((t.dropWhile wsChar).reverse.dropWhile wsChar).reverse

/-- Python `str.rstrip(string.punctuation)` as used on poetry lines
(terms.py line 158). -/
def pyRstripPunct (t : List Char) : List Char :=
  (t.reverse.dropWhile punctChar).reverse

/-- Python `str.split(' ')`: split on every single space, keeping empty
pieces (so `"".split(' ') = [""]` and consecutive spaces yield empties). -/
def splitSp : List Char → List (List Char)
  | [] => [[]]
  | c :: cs =>
    if c = ' ' then [] :: splitSp cs
    else
      match splitSp cs with
      | [] => [[c]]
      | p :: ps => (c :: p) :: ps

/-- Tail of `' '.join`: prepend a space before each remaining piece. -/
def joinAux : List (List Char) → List Char
  | [] => []
  | p :: ps => ' ' :: (p ++ joinAux ps)

/-- Python `' '.join(pieces)`. -/
def joinSp : List (List Char) → List Char
  | [] => []
  | p :: ps => p ++ joinAux ps

/-- Helper for counting maximal `\w+` runs; the flag records whether the
previous character was a word character. -/
def wordRunsAux : Bool → List Char → Nat
  | _, [] => 0
  | b, c :: cs =>
    if wordChar c then (if b then 0 else 1) + wordRunsAux true cs
    else wordRunsAux false cs

/-- Number of matches of `re.findall(r'\w+', t)` (terms.py line 102): the
number of maximal runs of word characters. -/
def wordRuns (t : List Char) : Nat :=
  wordRunsAux false t

/-- Helper for collapsing runs of spaces; the flag records whether the
previous character was a space that was kept. -/
def collapseAux : Bool → List Char → List Char
  | _, [] => []
  | b, c :: cs =>
    if c = ' ' then
      if b then collapseAux true cs else ' ' :: collapseAux true cs
    else c :: collapseAux false cs

/-- Python `re.sub(' +', ' ', t)` (terms.py line 125): collapse each maximal
run of spaces to a single space. -/
def collapseSpaces (t : List Char) : List Char :=
  collapseAux false t

/-- The character map of `re.sub(r'[^\w\s]', ' ', t)` (terms.py line 124):
every character that is neither a word character nor whitespace becomes a
space. -/
def scrubChar (c : Char) : Char :=
  if wordChar c || wsChar c then c else ' '

/-- Final normalization of a terms line (terms.py lines 123-125): keep the
text before the first period, replace non-word non-space characters by
spaces, strip, and collapse space runs. -/
def normalizeLine (t : List Char) : List Char :=
  collapseSpaces (stripWs ((t.takeWhile (fun c => !(c = '.' : Bool))).map scrubChar))

/-- Case folding of a terms line (terms.py lines 91-92): an entirely
uppercase line is lowercased, any other line is kept. -/
def caseFold (t : List Char) : List Char :=
  if pyIsUpper t then pyLower t else t

/-- The complete per-line normalizer of the terms branch: case folding
followed by the final normalization. -/
def normalizeFull (t : List Char) : List Char :=
  normalizeLine (caseFold t)

/-- Uniqueness key `line.strip().lower()` (terms.py lines 118 and 155). -/
def lineKey (t : List Char) : List Char :=
  pyLower (stripWs t)

/-- Python slice `parts[r2:-(r2)]` (terms.py line 105).  When `r2 = 0` the
slice is `parts[0:0] = []`, because `-0 == 0` in Python. -/
def middleSlice (ps : List (List Char)) (r2 : Nat) : List (List Char) :=
  if r2 = 0 then [] else (ps.take (ps.length - r2)).drop r2

/-- The three trimming candidates of terms.py lines 104-106 for a line `t`
and excess `r`: kept-from-start `parts[:-r]`, centered `parts[r/2:-(r/2)]`,
kept-from-end `parts[r:]`, each re-joined with single spaces. -/
def trimCandidates (t : List Char) (r : Nat) : List (List Char) :=
  [joinSp ((splitSp t).take ((splitSp t).length - r)),
   joinSp (middleSlice (splitSp t) (r / 2)),
   joinSp ((splitSp t).drop r)]

/-- The trimmed line selected by `random.choice([start, middle, end])`
(terms.py line 107), with the random draw `k` interpreted modulo 3. -/
def trimmedLine (t : List Char) (r k : Nat) : List Char :=
  (trimCandidates t r).getD (k % 3) []

/-- The configuration surface of terms.py (argparse flags).  `max_lines` and
`max_words_per_line` are modelled as `Nat` with `0` meaning the same as
Python falsiness of the stored value: the guards `if args.max_lines:` and
`if args.max_words_per_line:` in the source test truthiness, so an absent
flag and an explicit `0` behave identically. -/
structure TermsConfig where
  unique_lines : Bool
  random_skip : Bool
  max_lines : Nat
  max_words_per_line : Nat
deriving DecidableEq

/-- The mutable state of the module-level selection loop: the two shrinking
pools, the `lines_seen` set (as a list of keys), the `total_lines` counter,
the sequence of accepted lines written to the output file, and the number
`rc` of random draws consumed so far (the cursor into the oracle). -/
structure LoopState where
  terms : List (List Char)
  poetry : List (List Char)
  lines_seen : List (List Char)
  total_lines : Nat
  output : List (List Char)
  rc : Nat
deriving DecidableEq

/-- Outcome of one pool branch of the loop body: `brk` models `break`,
`cont` models `continue`, `go` models falling through to the next
statement. -/
inductive StepOut where
  | brk : LoopState → StepOut
  | cont : LoopState → StepOut
  | go : LoopState → StepOut
deriving DecidableEq

/-- The state carried by a branch outcome. -/
def StepOut.state : StepOut → LoopState
  | .brk s => s
  | .cont s => s
  | .go s => s

/-- Write path of the terms branch (terms.py lines 123-132): normalize the
line, append it to the output, bump the counter, and consume one random
value for the blank-run choice. -/
def writeTerm (t : List Char) (st : LoopState) : StepOut :=
  .go { st with output := st.output ++ [normalizeLine t],
                total_lines := st.total_lines + 1,
                rc := st.rc + 1 }

/-- Uniqueness gate of the terms branch (terms.py lines 117-120): the key is
computed from the candidate before the final normalization; a seen key is a
`continue`, a fresh key is recorded and the line written. -/
def termsWrite (cfg : TermsConfig) (t : List Char) (st : LoopState) : StepOut :=
  if cfg.unique_lines then
    if lineKey t ∈ st.lines_seen then .cont st
    else writeTerm t { st with lines_seen := lineKey t :: st.lines_seen }
  else writeTerm t st

/-- Random-skip gate of the terms branch (terms.py lines 111-113). -/
def termsSkip (cfg : TermsConfig) (rand : Nat → Nat) (t : List Char)
    (st : LoopState) : StepOut :=
  if cfg.random_skip then
    if rand st.rc % 2 = 1 then .cont { st with rc := st.rc + 1 }
    else termsWrite cfg t { st with rc := st.rc + 1 }
  else termsWrite cfg t st

/-- Word-trimming step of the terms branch (terms.py lines 100-107): only
taken when the flag is truthy and the `\w+` count strictly exceeds it. -/
def termsTrim (cfg : TermsConfig) (rand : Nat → Nat) (t : List Char)
    (st : LoopState) : StepOut :=
  if cfg.max_words_per_line ≠ 0 ∧ cfg.max_words_per_line < wordRuns t then
    termsSkip cfg rand (trimmedLine t (wordRuns t - cfg.max_words_per_line) (rand st.rc))
      { st with rc := st.rc + 1 }
  else termsSkip cfg rand t st

/-- Max-lines gate of the terms branch (terms.py lines 95-97). -/
def termsChecked (cfg : TermsConfig) (rand : Nat → Nat) (t : List Char)
    (st : LoopState) : StepOut :=
  if cfg.max_lines ≠ 0 ∧ cfg.max_lines ≤ st.total_lines then .brk st
  else termsTrim cfg rand t st

/-- The whole terms branch after the draw (terms.py lines 89-134): a
whitespace-only raw line falls through to the poetry branch untouched,
otherwise the line is case folded and passed down the gates. -/
def termsBody (cfg : TermsConfig) (rand : Nat → Nat) (t : List Char)
    (st : LoopState) : StepOut :=
  if pyIsSpace t then .go st
  else termsChecked cfg rand (caseFold t) st

/-- Write path of the poetry branch (terms.py lines 158-164): the raw line
with trailing punctuation stripped is written verbatim. -/
def writePoem (p : List Char) (st : LoopState) : StepOut :=
  .go { st with output := st.output ++ [pyRstripPunct p],
                total_lines := st.total_lines + 1,
                rc := st.rc + 1 }

/-- Uniqueness gate of the poetry branch (terms.py lines 154-157). -/
def poemWrite (cfg : TermsConfig) (p : List Char) (st : LoopState) : StepOut :=
  if cfg.unique_lines then
    if lineKey p ∈ st.lines_seen then .cont st
    else writePoem p { st with lines_seen := lineKey p :: st.lines_seen }
  else writePoem p st

/-- Random-skip gate of the poetry branch (terms.py lines 148-150). -/
def poemSkip (cfg : TermsConfig) (rand : Nat → Nat) (p : List Char)
    (st : LoopState) : StepOut :=
  if cfg.random_skip then
    if rand st.rc % 2 = 1 then .cont { st with rc := st.rc + 1 }
    else poemWrite cfg p { st with rc := st.rc + 1 }
  else poemWrite cfg p st

/-- The whole poetry branch after the draw (terms.py lines 139-166). -/
def poetryBody (cfg : TermsConfig) (rand : Nat → Nat) (p : List Char)
    (st : LoopState) : StepOut :=
  if pyIsSpace p then .go st
  else if cfg.max_lines ≠ 0 ∧ cfg.max_lines ≤ st.total_lines then .brk st
  else poemSkip cfg rand p st

/-- Draw-and-remove from the terms pool (terms.py lines 87-88):
`random.choice` picks an element, `list.remove` deletes the first equal
element. -/
def drawTerms (rand : Nat → Nat) (st : LoopState) : LoopState :=
  { st with terms := st.terms.erase (st.terms.getD (rand st.rc % st.terms.length) []),
            rc := st.rc + 1 }

/-- Draw-and-remove from the poetry pool (terms.py lines 137-138). -/
def drawPoetry (rand : Nat → Nat) (st : LoopState) : LoopState :=
  { st with poetry := st.poetry.erase (st.poetry.getD (rand st.rc % st.poetry.length) []),
            rc := st.rc + 1 }

/-- Result of one full iteration of the `while` loop: either the loop is
over (`stop`, from the `while` guard failing or a `break`) or it proceeds
to the next iteration (`next`). -/
inductive IterRes where
  | stop : LoopState → IterRes
  | next : LoopState → IterRes
deriving DecidableEq

/-- The state carried by an iteration result. -/
def IterRes.state : IterRes → LoopState
  | .stop s => s
  | .next s => s

/-- One iteration of the selection loop (terms.py lines 85-166): check the
`while` guard, draw-and-remove a terms line, run the terms branch; unless
that branch hit `continue` or `break`, draw-and-remove a poetry line and run
the poetry branch. -/
def loopIter (cfg : TermsConfig) (rand : Nat → Nat) (st : LoopState) : IterRes :=
  if st.terms = [] ∨ st.poetry = [] then .stop st
  else
    match termsBody cfg rand (st.terms.getD (rand st.rc % st.terms.length) [])
        (drawTerms rand st) with
    | .brk s => .stop s
    | .cont s => .next s
    | .go s =>
      match poetryBody cfg rand (s.poetry.getD (rand s.rc % s.poetry.length) [])
          (drawPoetry rand s) with
      | .brk s2 => .stop s2
      | .cont s2 => .next s2
      | .go s2 => .next s2

/-- Fuel-indexed iteration of the selection loop.  Every iteration removes
one line from the terms pool, so `st.terms.length` fuel always reaches the
loop's actual exit (proven below). -/
def runLoop (cfg : TermsConfig) (rand : Nat → Nat) : Nat → LoopState → LoopState
  | 0, st => st
  | fuel + 1, st =>
    match loopIter cfg rand st with
    | .stop s => s
    | .next s => runLoop cfg rand fuel s

/-- Initial loop state for given pool contents (terms.py lines 80-84). -/
def initState (terms poetry : List (List Char)) : LoopState :=
  { terms := terms, poetry := poetry, lines_seen := [], total_lines := 0,
    output := [], rc := 0 }

/-- A complete run of the selection loop on the given pools. -/
def runProgram (cfg : TermsConfig) (rand : Nat → Nat)
    (terms poetry : List (List Char)) : LoopState :=
  runLoop cfg rand terms.length (initState terms poetry)

/-- The observable top-level effects of terms.py before and around the
selection loop, in program order (lines 57-80): create the output directory
(58-59), open i.e. create the output file (72), fetch the terms web page
(75), open the poetry file (80), then run the loop.  A network failure
aborts after the fetch attempt; a missing poetry file aborts after the open
attempt. -/
inductive RunEvent where
  | mkOutputDir : RunEvent
  | createOutputFile : RunEvent
  | fetchTermsPage : RunEvent
  | openPoetryFile : RunEvent
  | runSelection : RunEvent
deriving DecidableEq

/-- Event trace of a run in which the web fetch succeeds iff `fetchOk` and
the poetry file opens successfully iff `poetryOk`, following the statement
order of terms.py lines 57-85. -/
def mainEvents (fetchOk poetryOk : Bool) : List RunEvent :=
  [.mkOutputDir, .createOutputFile, .fetchTermsPage] ++
    (if fetchOk then
      [.openPoetryFile] ++ (if poetryOk then [.runSelection] else [])
    else [])

/-- A concrete random oracle that always returns 0 (always draws the first
remaining element and the first choice of every random pick). -/
def zeroRand : Nat → Nat := fun _ => 0

/-- The default configuration: no flags passed, `max_words_per_line` at its
argparse default of 8. -/
def defaultCfg : TermsConfig :=
  { unique_lines := false, random_skip := false, max_lines := 0,
    max_words_per_line := 8 }

/-- The default configuration with `--unique_lines`. -/
def uniqueCfg : TermsConfig :=
  { unique_lines := true, random_skip := false, max_lines := 0,
    max_words_per_line := 8 }

/-- The default configuration with `--max_lines 2`. -/
def capCfg : TermsConfig :=
  { unique_lines := false, random_skip := false, max_lines := 2,
    max_words_per_line := 8 }

/-- Concrete run for claim C4: uniqueness enabled, two terms lines whose
uniqueness keys differ but whose normalized forms coincide. -/
def c4final : LoopState :=
  runProgram uniqueCfg zeroRand
    ["hello, world.".toList, "hello world".toList]
    [" ".toList, " ".toList]

/-- Concrete run for claim C5: a poetry line containing a non-ASCII
character. -/
def c5final : LoopState :=
  runProgram defaultCfg zeroRand ["hi".toList] ["héllo\n".toList]

/-- Concrete run for claim C6: a terms line that is not whitespace but
normalizes to the empty string. -/
def c6final : LoopState :=
  runProgram defaultCfg zeroRand ["...".toList] ["x\n".toList]

/-- A small concrete loop state used by witnesses. -/
def witState : LoopState := initState ["alpha".toList] ["beta".toList]
/-- An in-range `List.getD` returns a member of the list. -/
theorem getD_mem {α : Type} (l : List α) (i : Nat) (d : α) (h : i < l.length) :
    l.getD i d ∈ l := by
  induction l generalizing i with
  | nil => simp at h
  | cons a as ih =>
    cases i with
    | zero => simp
    | succ n =>
      simp only [List.getD_cons_succ]
      exact List.mem_cons_of_mem a (ih n (by simpa using h))

/-- The terms branch never touches either pool. -/
theorem termsBody_pools (cfg : TermsConfig) (rand : Nat → Nat) (t : List Char)
    (st : LoopState) :
    ((termsBody cfg rand t st).state).terms = st.terms ∧
    ((termsBody cfg rand t st).state).poetry = st.poetry := by
  simp only [termsBody, termsChecked, termsTrim, termsSkip, termsWrite, writeTerm,
    apply_ite StepOut.state, StepOut.state]
  split_ifs <;> simp

/-- The poetry branch never touches either pool. -/
theorem poetryBody_pools (cfg : TermsConfig) (rand : Nat → Nat) (p : List Char)
    (st : LoopState) :
    ((poetryBody cfg rand p st).state).terms = st.terms ∧
    ((poetryBody cfg rand p st).state).poetry = st.poetry := by
  simp only [poetryBody, poemSkip, poemWrite, writePoem,
    apply_ite StepOut.state, StepOut.state]
  split_ifs <;> simp

/-- With `max_lines` set, the terms branch keeps `total_lines` within the cap: every write on this branch is guarded by the break check. -/
theorem termsBody_total (cfg : TermsConfig) (rand : Nat → Nat) (t : List Char)
    (st : LoopState) (hml : cfg.max_lines ≠ 0)
    (h : st.total_lines ≤ cfg.max_lines) :
    ((termsBody cfg rand t st).state).total_lines ≤ cfg.max_lines := by
  simp only [termsBody, termsChecked, termsTrim, termsSkip, termsWrite, writeTerm,
    apply_ite StepOut.state, StepOut.state]
  split_ifs <;> simp <;> omega

/-- With `max_lines` set, the poetry branch keeps `total_lines` within the cap. -/
theorem poetryBody_total (cfg : TermsConfig) (rand : Nat → Nat) (p : List Char)
    (st : LoopState) (hml : cfg.max_lines ≠ 0)
    (h : st.total_lines ≤ cfg.max_lines) :
    ((poetryBody cfg rand p st).state).total_lines ≤ cfg.max_lines := by
  simp only [poetryBody, poemSkip, poemWrite, writePoem,
    apply_ite StepOut.state, StepOut.state]
  split_ifs <;> simp <;> omega

/-- Unfolding of one loop iteration when the while guard holds. -/
theorem loopIter_eq (cfg : TermsConfig) (rand : Nat → Nat) (st : LoopState)
    (hg : ¬(st.terms = [] ∨ st.poetry = [])) :
    loopIter cfg rand st =
      match termsBody cfg rand (st.terms.getD (rand st.rc % st.terms.length) [])
          (drawTerms rand st) with
      | .brk s => .stop s
      | .cont s => .next s
      | .go s =>
        match poetryBody cfg rand (s.poetry.getD (rand s.rc % s.poetry.length) [])
            (drawPoetry rand s) with
        | .brk s2 => .stop s2
        | .cont s2 => .next s2
        | .go s2 => .next s2 := by
  unfold loopIter
  rw [if_neg hg]

/-- Unfolding of `runLoop` at a successor amount of fuel. -/
theorem runLoop_succ (cfg : TermsConfig) (rand : Nat → Nat) (fuel : Nat) (st : LoopState) :
    runLoop cfg rand (fuel + 1) st =
      match loopIter cfg rand st with
      | .stop s => s
      | .next s => runLoop cfg rand fuel s := rfl

/-- Unfolding of `runLoop` at zero fuel. -/
theorem runLoop_zero (cfg : TermsConfig) (rand : Nat → Nat) (st : LoopState) :
    runLoop cfg rand 0 st = st := rfl

/-- With `max_lines` set, one loop iteration preserves `total_lines ≤ max_lines`. -/
theorem loopIter_total (cfg : TermsConfig) (rand : Nat → Nat) (st : LoopState)
    (hml : cfg.max_lines ≠ 0) (h : st.total_lines ≤ cfg.max_lines) :
    ((loopIter cfg rand st).state).total_lines ≤ cfg.max_lines := by
  by_cases hg : st.terms = [] ∨ st.poetry = []
  · simpa [loopIter, hg, IterRes.state] using h
  · have h1 : (drawTerms rand st).total_lines ≤ cfg.max_lines := h
    have h2 := termsBody_total cfg rand
      (st.terms.getD (rand st.rc % st.terms.length) []) (drawTerms rand st) hml h1
    rw [loopIter_eq cfg rand st hg]
    cases hb : termsBody cfg rand
        (st.terms.getD (rand st.rc % st.terms.length) []) (drawTerms rand st) with
    | brk s => rw [hb] at h2; exact h2
    | cont s => rw [hb] at h2; exact h2
    | go s =>
      rw [hb] at h2
      simp only [StepOut.state] at h2
      have h3 : (drawPoetry rand s).total_lines ≤ cfg.max_lines := h2
      have h4 := poetryBody_total cfg rand
        (s.poetry.getD (rand s.rc % s.poetry.length) []) (drawPoetry rand s) hml h3
      dsimp only
      cases hp : poetryBody cfg rand
          (s.poetry.getD (rand s.rc % s.poetry.length) []) (drawPoetry rand s) with
      | brk s2 => rw [hp] at h4; exact h4
      | cont s2 => rw [hp] at h4; exact h4
      | go s2 => rw [hp] at h4; exact h4

/-- With `max_lines` set, any number of loop iterations preserves `total_lines ≤ max_lines`. -/
theorem runLoop_total (cfg : TermsConfig) (rand : Nat → Nat) :
    ∀ (fuel : Nat) (st : LoopState), cfg.max_lines ≠ 0 →
    st.total_lines ≤ cfg.max_lines →
    (runLoop cfg rand fuel st).total_lines ≤ cfg.max_lines := by
  intro fuel
  induction fuel with
  | zero => intro st hml h; simpa [runLoop_zero] using h
  | succ f ih =>
    intro st hml h
    have h2 := loopIter_total cfg rand st hml h
    rw [runLoop_succ]
    cases hi : loopIter cfg rand st with
    | stop s => rw [hi] at h2; exact h2
    | next s =>
      rw [hi] at h2
      simp only [IterRes.state] at h2
      exact ih s hml h2

/-- When the while guard holds, an iteration removes exactly the drawn line from the terms pool, whatever else happens in the branches. -/
theorem loopIter_terms_shrink (cfg : TermsConfig) (rand : Nat → Nat) (st : LoopState)
    (hg : ¬(st.terms = [] ∨ st.poetry = [])) :
    ((loopIter cfg rand st).state).terms =
      st.terms.erase (st.terms.getD (rand st.rc % st.terms.length) []) := by
  have hp0 := termsBody_pools cfg rand
    (st.terms.getD (rand st.rc % st.terms.length) []) (drawTerms rand st)
  rw [loopIter_eq cfg rand st hg]
  cases hb : termsBody cfg rand
      (st.terms.getD (rand st.rc % st.terms.length) []) (drawTerms rand st) with
  | brk s => rw [hb] at hp0; exact hp0.1
  | cont s => rw [hb] at hp0; exact hp0.1
  | go s =>
    rw [hb] at hp0
    simp only [StepOut.state] at hp0
    have hq0 := poetryBody_pools cfg rand
      (s.poetry.getD (rand s.rc % s.poetry.length) []) (drawPoetry rand s)
    dsimp only
    cases hpb : poetryBody cfg rand
        (s.poetry.getD (rand s.rc % s.poetry.length) []) (drawPoetry rand s) with
    | brk s2 =>
      rw [hpb] at hq0
      simp only [StepOut.state] at hq0
      show s2.terms = _
      rw [hq0.1]
      exact hp0.1
    | cont s2 =>
      rw [hpb] at hq0
      simp only [StepOut.state] at hq0
      show s2.terms = _
      rw [hq0.1]
      exact hp0.1
    | go s2 =>
      rw [hpb] at hq0
      simp only [StepOut.state] at hq0
      show s2.terms = _
      rw [hq0.1]
      exact hp0.1

/-- When the while guard holds, an iteration leaves the poetry pool unchanged (terms branch broke or continued) or removes exactly the drawn poetry line. -/
theorem loopIter_poetry_rel (cfg : TermsConfig) (rand : Nat → Nat) (st : LoopState)
    (hg : ¬(st.terms = [] ∨ st.poetry = [])) :
    ((loopIter cfg rand st).state).poetry = st.poetry ∨
      ∃ y, y ∈ st.poetry ∧
        ((loopIter cfg rand st).state).poetry = st.poetry.erase y := by
  have hp0 := termsBody_pools cfg rand
    (st.terms.getD (rand st.rc % st.terms.length) []) (drawTerms rand st)
  rw [loopIter_eq cfg rand st hg]
  cases hb : termsBody cfg rand
      (st.terms.getD (rand st.rc % st.terms.length) []) (drawTerms rand st) with
  | brk s => rw [hb] at hp0; exact Or.inl hp0.2
  | cont s => rw [hb] at hp0; exact Or.inl hp0.2
  | go s =>
    rw [hb] at hp0
    simp only [StepOut.state] at hp0
    have hsp : s.poetry = st.poetry := hp0.2
    have hpne : st.poetry ≠ [] := fun he => hg (Or.inr he)
    have hmem : s.poetry.getD (rand s.rc % s.poetry.length) [] ∈ st.poetry := by
      rw [← hsp]
      exact getD_mem _ _ _ (Nat.mod_lt _ (List.length_pos.mpr (by rw [hsp]; exact hpne)))
    have hq0 := poetryBody_pools cfg rand
      (s.poetry.getD (rand s.rc % s.poetry.length) []) (drawPoetry rand s)
    dsimp only
    cases hpb : poetryBody cfg rand
        (s.poetry.getD (rand s.rc % s.poetry.length) []) (drawPoetry rand s) with
    | brk s2 =>
      rw [hpb] at hq0
      simp only [StepOut.state] at hq0
      refine Or.inr ⟨s.poetry.getD (rand s.rc % s.poetry.length) [], hmem, ?_⟩
      show s2.poetry = _
      rw [hq0.2]
      simp [drawPoetry, hsp]
    | cont s2 =>
      rw [hpb] at hq0
      simp only [StepOut.state] at hq0
      refine Or.inr ⟨s.poetry.getD (rand s.rc % s.poetry.length) [], hmem, ?_⟩
      show s2.poetry = _
      rw [hq0.2]
      simp [drawPoetry, hsp]
    | go s2 =>
      rw [hpb] at hq0
      simp only [StepOut.state] at hq0
      refine Or.inr ⟨s.poetry.getD (rand s.rc % s.poetry.length) [], hmem, ?_⟩
      show s2.poetry = _
      rw [hq0.2]
      simp [drawPoetry, hsp]

/-- An iteration that continues the loop shrank the terms pool by exactly one line. -/
theorem loopIter_next_length (cfg : TermsConfig) (rand : Nat → Nat) (st : LoopState)
    (s : LoopState) (h : loopIter cfg rand st = .next s) :
    s.terms.length + 1 = st.terms.length := by
  by_cases hg : st.terms = [] ∨ st.poetry = []
  · rw [loopIter, if_pos hg] at h
    exact absurd h (by simp)
  · have hs := loopIter_terms_shrink cfg rand st hg
    rw [h] at hs
    simp only [IterRes.state] at hs
    have htne : st.terms ≠ [] := fun he => hg (Or.inl he)
    have hmem : st.terms.getD (rand st.rc % st.terms.length) [] ∈ st.terms :=
      getD_mem _ _ _ (Nat.mod_lt _ (List.length_pos.mpr htne))
    rw [hs, List.length_erase_of_mem hmem]
    have : st.terms.length ≠ 0 := fun he => htne (List.length_eq_zero.mp he)
    omega

/-- Fuel beyond the size of the terms pool is never consumed: the loop reaches its exit within `terms.length` iterations. -/
theorem runLoop_stab (cfg : TermsConfig) (rand : Nat → Nat) :
    ∀ (n fuel : Nat) (st : LoopState), st.terms.length ≤ n → n ≤ fuel →
    runLoop cfg rand fuel st = runLoop cfg rand n st := by
  intro n
  induction n with
  | zero =>
    intro fuel st hn _
    have ht : st.terms = [] := List.length_eq_zero.mp (Nat.le_zero.mp hn)
    have hi : loopIter cfg rand st = .stop st := by
      rw [loopIter, if_pos (Or.inl ht)]
    cases fuel with
    | zero => rfl
    | succ f => rw [runLoop_succ, hi, runLoop_zero]
  | succ m ih =>
    intro fuel st hn hf
    cases fuel with
    | zero => omega
    | succ f =>
      rw [runLoop_succ, runLoop_succ]
      cases hi : loopIter cfg rand st with
      | stop s => rfl
      | next s =>
        have hlen := loopIter_next_length cfg rand st s hi
        exact (ih f s (by omega) (by omega)).trans (ih m s (by omega) le_rfl).symm

/-- Python `split` never returns an empty list of pieces. -/
theorem splitSp_ne_nil : ∀ (t : List Char), splitSp t ≠ [] := by
  intro t
  cases t with
  | nil => simp [splitSp]
  | cons c cs =>
    simp only [splitSp]
    split_ifs
    · simp
    · cases h : splitSp cs <;> simp

/-- Joining with single spaces undoes splitting on single spaces. -/
theorem joinSp_splitSp : ∀ (t : List Char), joinSp (splitSp t) = t := by
  intro t
  induction t with
  | nil => rfl
  | cons c cs ih =>
    obtain ⟨q, qs, hq⟩ : ∃ q qs, splitSp cs = q :: qs := by
      cases h : splitSp cs with
      | nil => exact absurd h (splitSp_ne_nil cs)
      | cons q qs => exact ⟨q, qs, rfl⟩
    simp only [splitSp]
    split_ifs with hc
    · rw [hq] at ih ⊢
      simp only [joinSp, joinAux, List.nil_append] at ih ⊢
      rw [ih, hc]
    · rw [hq] at ih ⊢
      simp only [joinSp, List.cons_append] at ih ⊢
      rw [ih]

/-- Word-run counts add across an explicit space separator. -/
theorem wordRunsAux_append_space : ∀ (l1 : List Char) (b : Bool) (l2 : List Char),
    wordRunsAux b (l1 ++ ' ' :: l2) = wordRunsAux b l1 + wordRunsAux false l2 := by
  intro l1
  induction l1 with
  | nil =>
    intro b l2
    show wordRunsAux b (' ' :: l2) = wordRunsAux b [] + wordRunsAux false l2
    simp only [wordRunsAux]
    rw [if_neg (by decide : ¬ (wordChar ' ' = true))]
    omega
  | cons a l1 ih =>
    intro b l2
    simp only [List.cons_append, wordRunsAux, List.append_eq]
    by_cases hw : wordChar a = true
    · rw [if_pos hw, if_pos hw, ih true, Nat.add_assoc]
    · rw [if_neg hw, if_neg hw]
      exact ih false l2

/-- The word runs of a space-join are the sums of the word runs of the pieces. -/
theorem sumRuns : ∀ (ps : List (List Char)),
    wordRuns (joinSp ps) = (ps.map wordRuns).sum := by
  intro ps
  induction ps with
  | nil => rfl
  | cons q qs ih =>
    cases qs with
    | nil => simp [joinSp, joinAux, wordRuns]
    | cons r rs =>
      have hj : joinSp (q :: r :: rs) = q ++ (' ' :: joinSp (r :: rs)) := by
        simp [joinSp, joinAux]
      rw [hj]
      show wordRunsAux false (q ++ ' ' :: joinSp (r :: rs)) = _
      rw [wordRunsAux_append_space]
      rw [List.map_cons, List.sum_cons]
      rw [← ih]
      rfl

/-- A sum of ones over a list counts its length. -/
theorem sum_ones : ∀ (ps : List (List Char)), (∀ p ∈ ps, wordRuns p = 1) →
    (ps.map wordRuns).sum = ps.length := by
  intro ps
  induction ps with
  | nil => simp
  | cons q qs ih =>
    intro h
    simp only [List.map_cons, List.sum_cons, List.length_cons]
    rw [h q (List.mem_cons_self q qs), ih (fun p hp => h p (List.mem_cons_of_mem q hp))]
    omega

/-- Joining pieces that hold one word token each yields as many tokens as pieces. -/
theorem wordRuns_joinSp_of_ones (qs : List (List Char))
    (h : ∀ p ∈ qs, wordRuns p = 1) : wordRuns (joinSp qs) = qs.length := by
  rw [sumRuns, sum_ones qs h]

/-- Collapsing space runs introduces no new characters. -/
theorem mem_collapseAux (c : Char) : ∀ (b : Bool) (l : List Char),
    c ∈ collapseAux b l → c ∈ l := by
  intro b l
  induction l generalizing b with
  | nil => simp [collapseAux]
  | cons a as ih =>
    intro h
    simp only [collapseAux] at h
    by_cases ha : a = ' '
    · rw [if_pos ha] at h
      by_cases hb : b = true
      · rw [if_pos hb] at h
        exact List.mem_cons_of_mem a (ih true h)
      · rw [if_neg hb] at h
        rcases List.mem_cons.mp h with h | h
        · rw [h, ← ha]; exact List.mem_cons_self a as
        · exact List.mem_cons_of_mem a (ih true h)
    · rw [if_neg ha] at h
      rcases List.mem_cons.mp h with h | h
      · rw [h]; exact List.mem_cons_self a as
      · exact List.mem_cons_of_mem a (ih false h)

/-- Stripping edge whitespace introduces no new characters. -/
theorem mem_stripWs (c : Char) (l : List Char) (h : c ∈ stripWs l) : c ∈ l := by
  unfold stripWs at h
  rw [List.mem_reverse] at h
  have h2 : c ∈ (l.dropWhile wsChar).reverse := (List.dropWhile_sublist _).subset h
  rw [List.mem_reverse] at h2
  exact (List.dropWhile_sublist _).subset h2

/-- `takeWhile` keeps a list all of whose elements satisfy the predicate. -/
theorem takeWhile_all (p : Char → Bool) : ∀ (l : List Char),
    (∀ c ∈ l, p c = true) → l.takeWhile p = l := by
  intro l
  induction l with
  | nil => simp
  | cons a as ih =>
    intro h
    rw [List.takeWhile_cons, if_pos (h a (List.mem_cons_self a as)),
      ih (fun c hc => h c (List.mem_cons_of_mem a hc))]

/-- Mapping a function that fixes every element of a list fixes the list. -/
theorem map_self (f : Char → Char) : ∀ (l : List Char),
    (∀ c ∈ l, f c = c) → l.map f = l := by
  intro l
  induction l with
  | nil => simp
  | cons a as ih =>
    intro h
    simp only [List.map_cons]
    rw [h a (List.mem_cons_self a as), ih (fun c hc => h c (List.mem_cons_of_mem a hc))]

/-- C1, counterexample: for the line "a b c d" and `max_words_per_line = 1`
(token count 4, excess 3), the centered candidate computed by the code is
"b c", which holds 2 > 1 tokens — the claim that each of the three trimming
candidates contains at most `max_words_per_line` tokens is false. -/
theorem wordTrim_c1_counterexample :
    wordRuns ("a b c d".toList) = 4 ∧
    (trimCandidates ("a b c d".toList) (4 - 1)).getD 1 [] = "b c".toList ∧
    wordRuns ("b c".toList) = 2 ∧ ¬ (2 ≤ 1) := by decide

/-- C1, amended: for a line in which every space-separated element carries
exactly one word token, the prefix and suffix candidates contain at most
`M` tokens, the centered candidate contains at most `M + 1` tokens (it can
exceed `M` when the excess is odd), and the written line is always one of
the three computed candidates, never independently truncated. -/
theorem wordTrim_c1_amended (t : List Char) (M k : Nat)
    (hN : M < wordRuns t)
    (H : ∀ p ∈ splitSp t, wordRuns p = 1) :
    wordRuns ((trimCandidates t (wordRuns t - M)).getD 0 []) ≤ M ∧
    wordRuns ((trimCandidates t (wordRuns t - M)).getD 2 []) ≤ M ∧
    wordRuns ((trimCandidates t (wordRuns t - M)).getD 1 []) ≤ M + 1 ∧
    trimmedLine t (wordRuns t - M) k ∈ trimCandidates t (wordRuns t - M) := by
  have hL : wordRuns t = (splitSp t).length := by
    conv_lhs => rw [← joinSp_splitSp t]
    exact wordRuns_joinSp_of_ones (splitSp t) H
  refine ⟨?_, ?_, ?_, ?_⟩
  · show wordRuns (joinSp ((splitSp t).take ((splitSp t).length - (wordRuns t - M)))) ≤ M
    rw [wordRuns_joinSp_of_ones _ (fun p hp => H p (List.take_subset _ _ hp))]
    rw [List.length_take]
    omega
  · show wordRuns (joinSp ((splitSp t).drop (wordRuns t - M))) ≤ M
    rw [wordRuns_joinSp_of_ones _ (fun p hp => H p (List.drop_subset _ _ hp))]
    rw [List.length_drop]
    omega
  · show wordRuns (joinSp (middleSlice (splitSp t) ((wordRuns t - M) / 2))) ≤ M + 1
    unfold middleSlice
    split_ifs with h0
    · simp [joinSp, wordRuns, wordRunsAux]
    · rw [wordRuns_joinSp_of_ones _
        (fun p hp => H p (List.take_subset _ _ (List.drop_subset _ _ hp)))]
      rw [List.length_drop, List.length_take]
      omega
  · exact getD_mem _ _ _
      (by rw [(rfl : (trimCandidates t (wordRuns t - M)).length = 3)]
          exact Nat.mod_lt _ (by omega))

/-- C1, witness: the amended bounds evaluated on the concrete line
"aa bb cc" with `max_words_per_line = 2`. -/
theorem wordTrim_c1_amended_witness :
    wordRuns ((trimCandidates ("aa bb cc".toList) (wordRuns ("aa bb cc".toList) - 2)).getD 0 []) ≤ 2 ∧
    wordRuns ((trimCandidates ("aa bb cc".toList) (wordRuns ("aa bb cc".toList) - 2)).getD 2 []) ≤ 2 ∧
    wordRuns ((trimCandidates ("aa bb cc".toList) (wordRuns ("aa bb cc".toList) - 2)).getD 1 []) ≤ 2 + 1 ∧
    trimmedLine ("aa bb cc".toList) (wordRuns ("aa bb cc".toList) - 2) 5 ∈
      trimCandidates ("aa bb cc".toList) (wordRuns ("aa bb cc".toList) - 2) :=
  wordTrim_c1_amended ("aa bb cc".toList) 2 5 (by decide) (by decide)

/-- C2: whenever `max_lines` is set (truthy), `total_lines ≤ max_lines` is
preserved by every single iteration of the selection loop and holds of the
final state of a run of any length, i.e. it is an invariant at every point
of the loop. -/
theorem maxLines_c2_invariant (cfg : TermsConfig) (rand : Nat → Nat) (fuel : Nat)
    (st : LoopState) (hml : cfg.max_lines ≠ 0)
    (h : st.total_lines ≤ cfg.max_lines) :
    ((loopIter cfg rand st).state).total_lines ≤ cfg.max_lines ∧
    (runLoop cfg rand fuel st).total_lines ≤ cfg.max_lines :=
  ⟨loopIter_total cfg rand st hml h, runLoop_total cfg rand fuel st hml h⟩

/-- C2, witness: the invariant evaluated on a concrete run with
`max_lines = 2`. -/
theorem maxLines_c2_invariant_witness :
    ((loopIter capCfg zeroRand witState).state).total_lines ≤ capCfg.max_lines ∧
    (runLoop capCfg zeroRand 3 witState).total_lines ≤ capCfg.max_lines :=
  maxLines_c2_invariant capCfg zeroRand 3 witState (by decide) (by decide)

/-- C3, counterexample: for the line "a b c" with `max_words_per_line = 2`
the excess is 1, the centered candidate is the empty string, it is present
in the choice list, and random index 1 selects it — the claim that empty
candidates are excluded and the trimmer never selects an empty string is
false. -/
theorem trim_c3_counterexample :
    ([] : List Char) ∈ trimCandidates ("a b c".toList) (wordRuns ("a b c".toList) - 2) ∧
    trimmedLine ("a b c".toList) (wordRuns ("a b c".toList) - 2) 1 = [] := by decide

/-- C3, amended: the random choice set always contains all three
candidates with no emptiness filtering; when the excess is 1 the centered
candidate is the empty string, and the selected trimmed line is always one
of the three candidates, empty or not. -/
theorem trim_c3_amended (t : List Char) (k : Nat) :
    (trimCandidates t 1).length = 3 ∧
    (trimCandidates t 1).getD 1 [] = [] ∧
    trimmedLine t 1 k ∈ trimCandidates t 1 := by
  refine ⟨rfl, rfl, ?_⟩
  exact getD_mem _ _ _
    (by rw [(rfl : (trimCandidates t 1).length = 3)]
        exact Nat.mod_lt _ (by omega))

/-- C4, counterexample: with `unique_lines` enabled, a run on the pool of the
two lines "hello, world." and "hello world" writes the line "hello world" twice,
because the uniqueness key is taken before the final normalization — the
claim that the accepted lines are duplicate-free under case folding is
false. -/
theorem unique_c4_counterexample :
    uniqueCfg.unique_lines = true ∧
    c4final.output = ["hello world".toList, "hello world".toList] := by decide

/-- C4, amended: with `unique_lines` enabled, the case-folded form of the
candidate before final normalization is checked against `lines_seen`: a
present key is discarded without mutation, an absent key is recorded and
the line written.  Since the check precedes normalization, distinct keys
can still normalize to identical written lines. -/
theorem unique_c4_amended (cfg : TermsConfig) (t : List Char) (st : LoopState)
    (h : cfg.unique_lines = true) :
    (lineKey t ∈ st.lines_seen → termsWrite cfg t st = .cont st) ∧
    (lineKey t ∉ st.lines_seen → termsWrite cfg t st =
      .go { st with lines_seen := lineKey t :: st.lines_seen,
                    output := st.output ++ [normalizeLine t],
                    total_lines := st.total_lines + 1, rc := st.rc + 1 }) := by
  constructor
  · intro hm; simp [termsWrite, h, hm]
  · intro hm; simp [termsWrite, writeTerm, h, hm]

/-- C4, witness: the fresh-key write path evaluated on a concrete state. -/
theorem unique_c4_amended_witness :
    termsWrite uniqueCfg ("dup".toList) witState =
      .go { witState with
            lines_seen := lineKey ("dup".toList) :: witState.lines_seen,
            output := witState.output ++ [normalizeLine ("dup".toList)],
            total_lines := witState.total_lines + 1, rc := witState.rc + 1 } :=
  (unique_c4_amended uniqueCfg ("dup".toList) witState (by decide)).2 (by decide)

/-- C5, counterexample: a run whose poetry pool holds a non-ASCII line
writes that line verbatim and counts it — the claim that candidates with
non-ASCII characters are rejected is false (the code has no ASCII
filter). -/
theorem ascii_c5_counterexample :
    c5final.output = ["hi".toList, "héllo\n".toList] ∧
    c5final.total_lines = 2 ∧
    ("héllo\n".toList).any (fun c => 128 ≤ c.toNat) = true := by decide

/-- C5, amended: acceptance of a drawn poetry line does not inspect its
characters at all: any line that is not whitespace-only and passes the
max-lines, skip and uniqueness gates is written (with trailing punctuation
stripped) and counted, whether or not it contains non-ASCII characters;
the pool still decreases by one at the draw. -/
theorem ascii_c5_amended (cfg : TermsConfig) (rand : Nat → Nat) (p : List Char)
    (st : LoopState) (h1 : pyIsSpace p = false)
    (h2 : cfg.max_lines = 0 ∨ st.total_lines < cfg.max_lines)
    (h3 : cfg.random_skip = false) (h4 : cfg.unique_lines = false) :
    poetryBody cfg rand p st =
      .go { st with output := st.output ++ [pyRstripPunct p],
                    total_lines := st.total_lines + 1, rc := st.rc + 1 } := by
  have hml : ¬(cfg.max_lines ≠ 0 ∧ cfg.max_lines ≤ st.total_lines) := by
    rcases h2 with h2 | h2
    · intro hc; exact hc.1 h2
    · intro hc; omega
  simp [poetryBody, poemSkip, poemWrite, writePoem, h1, h3, h4, hml]

/-- C5, witness: the unconditional write path evaluated on a concrete
non-ASCII poetry line. -/
theorem ascii_c5_amended_witness :
    poetryBody defaultCfg zeroRand ("héllo\n".toList) witState =
      .go { witState with
            output := witState.output ++ [pyRstripPunct ("héllo\n".toList)],
            total_lines := witState.total_lines + 1, rc := witState.rc + 1 } :=
  ascii_c5_amended defaultCfg zeroRand ("héllo\n".toList) witState (by decide)
    (Or.inl (by decide)) (by decide) (by decide)

/-- C6, counterexample: the terms line "..." is not whitespace, passes
every gate, normalizes to the empty string, and is still written and
counted — the claim that lines that become empty after
normalization/trimming are discarded is false. -/
theorem emptyline_c6_counterexample :
    c6final.output = [[], "x\n".toList] ∧ c6final.total_lines = 2 := by decide

/-- C6, amended: a drawn terms line that is whitespace-only as raw text is
silently discarded (nothing written, counter unchanged, and it is not
returned to its pool); but emptiness is only tested on the raw line, so a
line that becomes empty during normalization is still written as an empty
line and counted. -/
theorem emptyline_c6_amended (cfg : TermsConfig) (rand : Nat → Nat) (t : List Char)
    (st : LoopState) :
    (pyIsSpace t = true → termsBody cfg rand t st = .go st) ∧
    (cfg.unique_lines = false → termsWrite cfg t st =
      .go { st with output := st.output ++ [normalizeLine t],
                    total_lines := st.total_lines + 1, rc := st.rc + 1 }) := by
  constructor
  · intro h; simp [termsBody, h]
  · intro h; simp [termsWrite, writeTerm, h]

/-- C6, witness: the two branches of the amended claim evaluated on the
whitespace line " " and the line "...". -/
theorem emptyline_c6_amended_witness :
    termsBody defaultCfg zeroRand (" ".toList) witState = .go witState ∧
    termsWrite defaultCfg ("...".toList) witState =
      .go { witState with
            output := witState.output ++ [normalizeLine ("...".toList)],
            total_lines := witState.total_lines + 1, rc := witState.rc + 1 } :=
  ⟨(emptyline_c6_amended defaultCfg zeroRand (" ".toList) witState).1 (by decide),
   (emptyline_c6_amended defaultCfg zeroRand ("...".toList) witState).2 (by decide)⟩

/-- C7, counterexample: normalization maps "well-made" to "well made": the
hyphen is replaced by a space, so the claim that apostrophes and hyphens
are preserved is false. -/
theorem normalize_c7_counterexample :
    normalizeLine ("well-made".toList) = "well made".toList ∧
    ('-') ∈ "well-made".toList ∧ ('-') ∉ normalizeLine ("well-made".toList) := by decide

/-- C7, amended: normalization strips (replaces by spaces) every character
that is not a word character or whitespace — apostrophes and hyphens
included — so every character of a normalized line is a word character or
whitespace. -/
theorem normalize_c7_amended (t : List Char) (c : Char) (h : c ∈ normalizeLine t) :
    wordChar c = true ∨ wsChar c = true := by
  have h1 : c ∈ stripWs ((t.takeWhile (fun c => !(c = '.' : Bool))).map scrubChar) :=
    mem_collapseAux c false _ h
  have h2 : c ∈ (t.takeWhile (fun c => !(c = '.' : Bool))).map scrubChar :=
    mem_stripWs c _ h1
  obtain ⟨a, _, ha⟩ := List.mem_map.mp h2
  rw [← ha]
  unfold scrubChar
  split_ifs with hw
  · simpa using hw
  · right; decide

/-- C7, witness: the amended claim evaluated at a character of a concrete
normalized line. -/
theorem normalize_c7_amended_witness :
    wordChar 'a' = true ∨ wsChar 'a' = true :=
  normalize_c7_amended ("ab".toList) 'a' (by decide)

/-- C8, counterexample: on a run whose web fetch fails, the event trace
already contains the creation of the output directory and of the output
file — the claim that a failing run aborts before any output artifact is
created is false. -/
theorem ioorder_c8_counterexample :
    RunEvent.createOutputFile ∈ mainEvents false true ∧
    RunEvent.mkOutputDir ∈ mainEvents false true ∧
    mainEvents false true =
      [RunEvent.mkOutputDir, RunEvent.createOutputFile, RunEvent.fetchTermsPage] := by decide

/-- C8, amended: the output directory and the output file are always
created before the web fetch and the poetry open are attempted; a fetch or
poetry failure aborts the rest of the run but leaves the directory and an
empty output file behind. -/
theorem ioorder_c8_amended (fetchOk poetryOk : Bool) :
    (mainEvents fetchOk poetryOk).take 3 =
      [RunEvent.mkOutputDir, RunEvent.createOutputFile, RunEvent.fetchTermsPage] ∧
    RunEvent.createOutputFile ∈ mainEvents fetchOk poetryOk := by
  cases fetchOk <;> cases poetryOk <;> decide

/-- C9, counterexample: the line "AB" is ASCII, a single sentence with no
stray punctuation and collapsed whitespace, yet the normalizer folds it to
"ab" — idempotence on already-normalized input fails for entirely
uppercase lines. -/
theorem normalize_c9_counterexample :
    (∀ c ∈ ("AB".toList), wordChar c = true ∨ c = ' ') ∧
    stripWs ("AB".toList) = "AB".toList ∧
    collapseSpaces ("AB".toList) = "AB".toList ∧
    normalizeFull ("AB".toList) = "ab".toList ∧
    normalizeFull ("AB".toList) ≠ "AB".toList := by decide

/-- C9, amended: the normalizer is the identity on every line that is not
entirely uppercase, contains only word characters and single spaces, has
no leading or trailing whitespace and no repeated spaces (hence is ASCII,
single-sentence, free of stray punctuation, with collapsed whitespace). -/
theorem normalize_c9_amended (t : List Char)
    (h1 : pyIsUpper t = false)
    (h2 : ∀ c ∈ t, wordChar c = true ∨ c = ' ')
    (h3 : stripWs t = t) (h4 : collapseSpaces t = t) :
    normalizeFull t = t := by
  have hf : caseFold t = t := by simp [caseFold, h1]
  have hdot : t.takeWhile (fun c => !(c = '.' : Bool)) = t := by
    apply takeWhile_all
    intro c hc
    have hne : c ≠ '.' := by
      rcases h2 c hc with h | h
      · intro he; rw [he] at h; exact absurd h (by decide)
      · intro he; rw [h] at he; exact absurd he (by decide)
    simp [hne]
  have hscrub : t.map scrubChar = t := by
    apply map_self
    intro c hc
    rcases h2 c hc with h | h
    · simp [scrubChar, h]
    · rw [h]; decide
  unfold normalizeFull normalizeLine
  rw [hf, hdot, hscrub, h3, h4]

/-- C9, witness: idempotence evaluated on the concrete line "ab cd". -/
theorem normalize_c9_amended_witness :
    normalizeFull ("ab cd".toList) = "ab cd".toList :=
  normalize_c9_amended ("ab cd".toList) (by decide) (by decide) (by decide) (by decide)

/-- C10: whenever the while guard holds, one iteration of the selection
loop removes exactly one (the drawn) line from the terms pool and at most
one line from the poetry pool, and adds no line to either; consequently
the loop terminates after at most as many iterations as the initial terms
pool size: fuel beyond `terms.length` never changes the outcome. -/
theorem loop_c10_termination (cfg : TermsConfig) (rand : Nat → Nat) (st : LoopState)
    (h1 : st.terms ≠ []) (h2 : st.poetry ≠ []) :
    (∃ x, x ∈ st.terms ∧ ((loopIter cfg rand st).state).terms = st.terms.erase x) ∧
    (((loopIter cfg rand st).state).poetry = st.poetry ∨
      ∃ y, y ∈ st.poetry ∧ ((loopIter cfg rand st).state).poetry = st.poetry.erase y) ∧
    (∀ fuel, st.terms.length ≤ fuel →
      runLoop cfg rand fuel st = runLoop cfg rand st.terms.length st) := by
  have hg : ¬(st.terms = [] ∨ st.poetry = []) := by
    intro hc
    rcases hc with hc | hc
    · exact h1 hc
    · exact h2 hc
  refine ⟨⟨st.terms.getD (rand st.rc % st.terms.length) [],
    getD_mem _ _ _ (Nat.mod_lt _ (List.length_pos.mpr h1)),
    loopIter_terms_shrink cfg rand st hg⟩,
    loopIter_poetry_rel cfg rand st hg, ?_⟩
  intro fuel hf
  exact runLoop_stab cfg rand st.terms.length fuel st le_rfl hf

/-- C10, witness: the iteration effect and the fuel bound evaluated on a
concrete one-line-per-pool state. -/
theorem loop_c10_termination_witness :
    (∃ x, x ∈ witState.terms ∧
      ((loopIter defaultCfg zeroRand witState).state).terms = witState.terms.erase x) ∧
    (((loopIter defaultCfg zeroRand witState).state).poetry = witState.poetry ∨
      ∃ y, y ∈ witState.poetry ∧
        ((loopIter defaultCfg zeroRand witState).state).poetry = witState.poetry.erase y) ∧
    runLoop defaultCfg zeroRand 7 witState =
      runLoop defaultCfg zeroRand witState.terms.length witState :=
  ⟨(loop_c10_termination defaultCfg zeroRand witState (by decide) (by decide)).1,
   (loop_c10_termination defaultCfg zeroRand witState (by decide) (by decide)).2.1,
   (loop_c10_termination defaultCfg zeroRand witState (by decide) (by decide)).2.2 7 (by decide)⟩

